import Mathlib

/-!
Verification of the decoder-combinator library (`src/index.ts`).

The embedding models the runtime dynamics of the TypeScript source.  Runtime
JS values are the inductive `Value`; every decoder is, at runtime, a wrapper
around a function `unknown -> unknown` that either returns or throws, which we
embed as `Value → Except Exc Value` (`Exc` distinguishes a thrown
`DecoderError` from any other host exception).  The static type parameters of
the TypeScript API are erased, exactly as they are at runtime.  fp-ts runtime
representations (`none`, `some`) are kept as the literal tagged objects they
are at runtime.
-/

namespace FpTsSchema

/-- Runtime JS values produced by parsing JSON (plus the `undefined` sentinel).
Numbers are modelled as integers: every numeric literal in the claims is an
integer, and `Number.isFinite` holds of all of them. Object fields are kept in
insertion order with string keys. -/
inductive Value where
  | jsUndefined : Value
  | vnull : Value
  | bool (b : Bool) : Value
  | num (n : Int) : Value
  | str (s : String) : Value
  | arr (elems : List Value) : Value
  | obj (fields : List (String × Value)) : Value

/-- Hex digit used by the `\u00XX` escapes of `JSON.stringify`. -/
def hexDigit (n : Nat) : String :=
  String.singleton (Char.ofNat (if n < 10 then 48 + n else 87 + n))

/-- Escaping of one character inside a JSON string literal, as
`JSON.stringify` performs it. -/
def escapeChar (c : Char) : String :=
  if c = '\"' then "\\\""
  else if c = '\\' then "\\\\"
  else if c = '\n' then "\\n"
  else if c = '\r' then "\\r"
  else if c = '\t' then "\\t"
  else if c.toNat = 8 then "\\b"
  else if c.toNat = 12 then "\\f"
  else if c.toNat < 32 then "\\u00" ++ hexDigit (c.toNat / 16) ++ hexDigit (c.toNat % 16)
  else String.singleton c

/-- A JSON string literal with quotes and escapes, as `JSON.stringify` prints it. -/
def quoteString (s : String) : String :=
  "\"" ++ String.join (s.toList.map escapeChar) ++ "\""

/-- The two-space indentation prefix used by `JSON.stringify(data, null, 2)`. -/
def indentStr (n : Nat) : String :=
  String.join (List.replicate n "  ")

mutual

/-- `JSON.stringify(v, null, 2)` at nesting level `lvl`; `none` models the JS
`undefined` result (an `undefined` input, which is omitted inside objects and
printed as `null` inside arrays). -/
def jshow (lvl : Nat) : Value → Option String
  | .jsUndefined => none
  | .vnull => some "null"
  | .bool b => some (if b then "true" else "false")
  | .num n => some (toString n)
  | .str s => some (quoteString s)
  | .arr xs =>
    some (match jshowItems (lvl + 1) xs with
      | [] => "[]"
      | items =>
        "[\n" ++ String.intercalate ",\n" (items.map (fun s => indentStr (lvl + 1) ++ s)) ++
          "\n" ++ indentStr lvl ++ "]")
  | .obj fs =>
    some (match jshowFields (lvl + 1) fs with
      | [] => "\x7b\x7d"
      | items =>
        "\x7b\n" ++ String.intercalate ",\n" (items.map (fun s => indentStr (lvl + 1) ++ s)) ++
          "\n" ++ indentStr lvl ++ "\x7d")

/-- Array elements rendered by `JSON.stringify`; `undefined` elements print as `null`. -/
def jshowItems (lvl : Nat) : List Value → List String
  | [] => []
  | x :: t => (jshow lvl x).getD "null" :: jshowItems lvl t

/-- Object entries rendered by `JSON.stringify`; entries whose value is
`undefined` are omitted. -/
def jshowFields (lvl : Nat) : List (String × Value) → List String
  | [] => []
  | (k, v) :: t =>
    match jshow lvl v with
    | none => jshowFields lvl t
    | some s => (quoteString k ++ ": " ++ s) :: jshowFields lvl t

end

/-- `const show = (data) => JSON.stringify(data, null, 2)`, as it behaves when
interpolated into a template literal (JS `undefined` interpolates as the text
`undefined`). -/
def showData (v : Value) : String :=
  (jshow 0 v).getD "undefined"

/-- The payload of a thrown `DecoderError`: a message and a path of string
segments (`class DecoderError extends SyntaxError`). -/
structure DecoderError where
  message : String
  path : List String
deriving DecidableEq

/-- The `DecoderError` constructor: it stores the path and rewrites the stored
message from the given one — `"seg: msg"` for a one-segment path,
`"seg.msg"` for a longer path, the message unchanged for an empty path. -/
def mkDecoderError (message : String) (path : List String) : DecoderError :=
  match path with
  | [] => { message := message, path := path }
  | [p] => { message := p ++ ": " ++ message, path := path }
  | p :: _ :: _ => { message := p ++ "." ++ message, path := path }

/-- A thrown JS exception: either a `DecoderError` of this library, or any
other host exception (`TypeError`, a user `Error`, ...) of which only a
description is kept — the library never inspects anything but the
`instanceof DecoderError` distinction. -/
inductive Exc where
  | decoderError (e : DecoderError)
  | other (description : String)
deriving DecidableEq

/-- A decoder at runtime: the unchecked-throwing function `forceDecode` given
to `createDecoder`.  The public `decode`/`is`/`andThen` operations are all
derived from it, exactly as `createDecoder` builds them. -/
structure Decoder where
  forceDecode : Value → Except Exc Value

/-- `createDecoder`: packages a throwing decode function as a `Decoder`. -/
def createDecoder (f : Value → Except Exc Value) : Decoder :=
  { forceDecode := f }

/-- The `decode` operation built by `createDecoder`: runs `forceDecode` under
`try`/`catch`, returning a thrown `DecoderError` as the error side and
replacing any other exception by `new DecoderError('Invalid data')`. -/
def Decoder.decode (d : Decoder) (data : Value) : Except DecoderError Value :=
  match d.forceDecode data with
  | .ok a => .ok a
  | .error (.decoderError e) => .error e
  | .error (.other _) => .error (mkDecoderError "Invalid data" [])

/-- The `is` operation built by `createDecoder`: runs `forceDecode` and
collapses every exception to `false`. -/
def Decoder.is (d : Decoder) (data : Value) : Bool :=
  match d.forceDecode data with
  | .ok _ => true
  | .error _ => false

/-- The `andThen` operation built by `createDecoder`: a new decoder whose
throwing function is `transformer ∘ forceDecode` (the transformer itself may
throw). -/
def Decoder.andThen (d : Decoder) (transformer : Value → Except Exc Value) : Decoder :=
  createDecoder fun data =>
    match d.forceDecode data with
    | .ok a => transformer a
    | .error e => .error e

/-- The internal `forceDecode` helper: calls `decoder.decode` and re-throws
the error side.  Note that it launders any non-`DecoderError` exception of the
underlying function into the `DecoderError('Invalid data')` produced by
`decode`. -/
def forceDecode (d : Decoder) (data : Value) : Except Exc Value :=
  match d.decode data with
  | .ok a => .ok a
  | .error e => .error (.decoderError e)

/-- `forceDecodeWithPath`: runs the helper `forceDecode` and, if a
`DecoderError` comes out, re-throws it rebuilt with `pathPart` prepended to
its path (any other exception is re-thrown unchanged). -/
def forceDecodeWithPath (d : Decoder) (data : Value) (pathPart : String) : Except Exc Value :=
  match forceDecode d data with
  | .ok a => .ok a
  | .error (.decoderError e) => .error (.decoderError (mkDecoderError e.message (pathPart :: e.path)))
  | .error (.other m) => .error (.other m)

/-- The fp-ts runtime value of `none`. -/
def noneV : Value :=
  .obj [("_tag", .str "None")]

/-- The fp-ts runtime value of `some a`. -/
def someV (a : Value) : Value :=
  .obj [("_tag", .str "Some"), ("value", a)]

/-- The fp-ts adapter `fromNullable`: `a == null ? none : some(a)` — loose
equality, so both `null` and `undefined` map to `none`. -/
def fromNullable : Value → Value
  | .vnull => noneV
  | .jsUndefined => noneV
  | a => someV a

/-- `checkDefined`: throws `DecoderError('This value is not there')` when the
data is `null` or `undefined` (loose `== null`). -/
def checkDefinedE (data : Value) : Except Exc Unit :=
  match data with
  | .vnull => .error (.decoderError (mkDecoderError "This value is not there" []))
  | .jsUndefined => .error (.decoderError (mkDecoderError "This value is not there" []))
  | _ => .ok ()

/-- `primitiveDecoder`: checks definedness, then the type condition, returning
the data unchanged. -/
def primitiveDecoder (dataType : String) (condition : Value → Bool) : Decoder :=
  createDecoder fun data =>
    match checkDefinedE data with
    | .error e => .error e
    | .ok _ =>
      if condition data then .ok data
      else .error (.decoderError (mkDecoderError ("This is not " ++ dataType ++ ": " ++ showData data) []))

/-- `unknown`: returns the data unchanged, always succeeding. -/
def unknown : Decoder :=
  createDecoder fun data => .ok data

/-- The `null` decoder (exported as `null`): succeeds exactly on the literal
`null` value. -/
def null_ : Decoder :=
  createDecoder fun data =>
    match data with
    | .vnull => .ok .vnull
    | _ => .error (.decoderError (mkDecoderError "Provided value is not null." []))

/-- `string`: `typeof $ === 'string'`. -/
def string : Decoder :=
  primitiveDecoder "a string" fun v =>
    match v with
    | .str _ => true
    | _ => false

/-- `number`: `typeof $ === 'number' && Number.isFinite($)`; the model's
numbers are all finite. -/
def number : Decoder :=
  primitiveDecoder "a number" fun v =>
    match v with
    | .num _ => true
    | _ => false

/-- `boolean`: `typeof $ === 'boolean'`. -/
def boolean : Decoder :=
  primitiveDecoder "a boolean" fun v =>
    match v with
    | .bool _ => true
    | _ => false

/-- `succeed(value)`: always returns the fixed value, ignoring the input. -/
def succeed (value : Value) : Decoder :=
  createDecoder fun _ => .ok value

/-- `never`: always throws. -/
def never : Decoder :=
  createDecoder fun _ =>
    .error (.decoderError (mkDecoderError "This field must never be present" []))

/-- JS strict equality `===` restricted to our values; distinct objects and
arrays are never identical (reference semantics), which is all `literal`
can observe since its literals are primitives. -/
def jsStrictEq : Value → Value → Bool
  | .jsUndefined, .jsUndefined => true
  | .vnull, .vnull => true
  | .bool a, .bool b => a == b
  | .num a, .num b => a == b
  | .str a, .str b => a == b
  | _, _ => false

/-- String interpolation `${x}` of a primitive literal in a template string
(unquoted, unlike `JSON.stringify`). -/
def templateStr : Value → String
  | .str s => s
  | .num n => toString n
  | .bool b => if b then "true" else "false"
  | .vnull => "null"
  | .jsUndefined => "undefined"
  | v => showData v

/-- `literal(lit)`: defined and strictly equal to the given literal. -/
def literal (lit : Value) : Decoder :=
  createDecoder fun data =>
    match checkDefinedE data with
    | .error e => .error e
    | .ok _ =>
      if jsStrictEq data lit then .ok data
      else .error (.decoderError (mkDecoderError
        ("Data does not match the literal. Expected: \x27" ++ templateStr lit ++
          "\x27, actual value: \x27" ++ showData data ++ "\x27") []))

/-- The loop of `oneOf`: try each decoder's `decode` in order, returning the
first success; collect each failure's message; when the list is exhausted,
throw a `DecoderError` aggregating all collected messages (path empty). -/
def oneOfGo (data : Value) : List Decoder → List String → Except Exc Value
  | [], errs =>
    .error (.decoderError (mkDecoderError
      ("None of the decoders worked:\n" ++ showData (.arr (errs.map .str))) []))
  | d :: rest, errs =>
    match d.decode data with
    | .ok a => .ok a
    | .error e => oneOfGo data rest (errs ++ [e.message])

/-- `oneOf(...decoders)`. -/
def oneOf (decoders : List Decoder) : Decoder :=
  createDecoder fun data => oneOfGo data decoders []

/-- `literalUnion(...lits)`: `oneOf` over per-value `literal` decoders. -/
def literalUnion (lits : List Value) : Decoder :=
  oneOf (lits.map literal)

/-- `regex(pattern)`: `string.andThen` with the pattern's test.  `RegExp`
matching itself is a host facility, abstracted as the predicate `test`;
`patStr` stands for `regex.toString()` in the message. -/
def regex (test : String → Bool) (patStr : String) : Decoder :=
  string.andThen fun data =>
    match data with
    | .str s =>
      if test s then .ok data
      else .error (.decoderError (mkDecoderError
        ("Data \x27" ++ s ++ "\x27 does not satisfy the regex \x27" ++ patStr ++ "\x27") []))
    | _ => .ok data

/-- `checkArrayType`: `Array.isArray`. -/
def checkArrayTypeE (data : Value) : Except Exc Unit :=
  match data with
  | .arr _ => .ok ()
  | _ => .error (.decoderError (mkDecoderError ("This is not an array: " ++ showData data) []))

/-- The element loop of `array`: `data.map((x, i) => forceDecodeWithPath(decoder, x, i.toString()))`,
aborting at the first element failure. -/
def arrayGo (d : Decoder) (i : Nat) : List Value → Except Exc (List Value)
  | [] => .ok []
  | x :: t =>
    match forceDecodeWithPath d x (toString i) with
    | .error e => .error e
    | .ok r =>
      match arrayGo d (i + 1) t with
      | .error e => .error e
      | .ok rs => .ok (r :: rs)

/-- `array(decoder)`. -/
def array (d : Decoder) : Decoder :=
  createDecoder fun data =>
    match checkDefinedE data with
    | .error e => .error e
    | .ok _ =>
      match data with
      | .arr xs =>
        match arrayGo d 0 xs with
        | .error e => .error e
        | .ok rs => .ok (.arr rs)
      | _ => .error (.decoderError (mkDecoderError ("This is not an array: " ++ showData data) []))

/-- The position loop of `tuple`:
`decoders.map((decoder, index) => forceDecodeWithPath(decoder, data[index], index.toString()))`;
`data[index]` is `undefined` past the end of the array. -/
def tupleGo (xs : List Value) (i : Nat) : List Decoder → Except Exc (List Value)
  | [] => .ok []
  | d :: rest =>
    match forceDecodeWithPath d (xs.getD i .jsUndefined) (toString i) with
    | .error e => .error e
    | .ok r =>
      match tupleGo xs (i + 1) rest with
      | .error e => .error e
      | .ok rs => .ok (r :: rs)

/-- `tuple(...decoders)`: defined, an array, at least as long as the decoder
list, then the first `n` positions decoded with index-prefixed paths. -/
def tuple (decoders : List Decoder) : Decoder :=
  createDecoder fun data =>
    match checkDefinedE data with
    | .error e => .error e
    | .ok _ =>
      match data with
      | .arr xs =>
        if xs.length < decoders.length then
          .error (.decoderError (mkDecoderError
            ("The tuple is not long enough. " ++ toString decoders.length ++ " > " ++
              toString xs.length) []))
        else
          match tupleGo xs 0 decoders with
          | .error e => .error e
          | .ok rs => .ok (.arr rs)
      | _ => .error (.decoderError (mkDecoderError ("This is not an array: " ++ showData data) []))

/-- First-match lookup in an object's field list (`result[key]` when present). -/
def lookupField (fields : List (String × Value)) (k : String) : Option Value :=
  match fields with
  | [] => none
  | (k', v) :: t => if k' = k then some v else lookupField t k

/-- JS property read `data[key]` on an object: `undefined` when absent. -/
def lookupD (fields : List (String × Value)) (k : String) : Value :=
  (lookupField fields k).getD .jsUndefined

/-- JS property write `result[key] = v`: replaces in place when the key
exists, appends otherwise. -/
def replaceField (fields : List (String × Value)) (k : String) (v : Value) : List (String × Value) :=
  match fields with
  | [] => [(k, v)]
  | (k', w) :: t => if k' = k then (k, v) :: t else (k', w) :: replaceField t k v

/-- `typeof x === 'object'`: true of `null`, arrays and plain objects. -/
def isObjType : Value → Bool
  | .vnull => true
  | .arr _ => true
  | .obj _ => true
  | _ => false

/-- Index-keyed entries of an array (or of a string's characters), as
`Object.entries` enumerates them. -/
def enumFrom (i : Nat) : List Value → List (String × Value)
  | [] => []
  | x :: t => (toString i, x) :: enumFrom (i + 1) t

/-- `Object.entries(b)`: the own enumerable string-keyed entries; throws a
`TypeError` on `null`/`undefined`. -/
def jsEntries : Value → Except Exc (List (String × Value))
  | .obj fs => .ok fs
  | .arr xs => .ok (enumFrom 0 xs)
  | .str s => .ok (enumFrom 0 (s.toList.map (fun c => .str (String.singleton c))))
  | .num _ => .ok []
  | .bool _ => .ok []
  | .vnull => .error (.other "TypeError: Cannot convert undefined or null to object")
  | .jsUndefined => .error (.other "TypeError: Cannot convert undefined or null to object")

/-- The spread `{...a}`: like `Object.entries` but yielding an empty object on
`null`/`undefined` instead of throwing. -/
def spreadFields : Value → List (String × Value)
  | .obj fs => fs
  | .arr xs => enumFrom 0 xs
  | .str s => enumFrom 0 (s.toList.map (fun c => .str (String.singleton c)))
  | _ => []

mutual

/-- Size of a value, used only as a termination measure. -/
def vsize : Value → Nat
  | .jsUndefined => 1
  | .vnull => 1
  | .bool _ => 1
  | .num _ => 1
  | .str _ => 1
  | .arr xs => 1 + vsizeL xs
  | .obj fs => 1 + vsizeF fs

/-- Size of a list of values. -/
def vsizeL : List Value → Nat
  | [] => 0
  | x :: t => 1 + vsize x + vsizeL t

/-- Size of a field list. -/
def vsizeF : List (String × Value) → Nat
  | [] => 0
  | (_, v) :: t => 1 + vsize v + vsizeF t

end

/-- Termination measure for `deepMerge`: the summed size of the object-typed
values among a list of entries, each padded by one. -/
def msum : List (String × Value) → Nat
  | [] => 0
  | (_, v) :: t => (if isObjType v then 1 + vsize v else 0) + msum t

theorem vsize_pos (v : Value) : 1 ≤ vsize v := by
  cases v <;> simp [vsize]

theorem msum_le_vsizeF (fs : List (String × Value)) : msum fs ≤ vsizeF fs := by
  induction fs with
  | nil => simp [msum, vsizeF]
  | cons h t ih =>
    obtain ⟨k, v⟩ := h
    simp only [msum, vsizeF]
    by_cases hv : isObjType v <;> simp [hv] <;> omega

theorem msum_enumFrom_le (i : Nat) (xs : List Value) : msum (enumFrom i xs) ≤ vsizeL xs := by
  induction xs generalizing i with
  | nil => simp [enumFrom, msum, vsizeL]
  | cons x t ih =>
    simp only [enumFrom, msum, vsizeL]
    have := ih (i + 1)
    by_cases hx : isObjType x <;> simp [hx] <;> omega

theorem msum_str_entries (l : List Char) (i : Nat) :
    msum (enumFrom i (l.map (fun c => Value.str (String.singleton c)))) = 0 := by
  induction l generalizing i with
  | nil => simp [enumFrom, msum]
  | cons c t ih => simp [enumFrom, msum, isObjType, ih]

theorem msum_jsEntries_lt (b : Value) (entries : List (String × Value))
    (h : jsEntries b = .ok entries) : msum entries < vsize b := by
  cases b <;> simp [jsEntries] at h
  case obj fs =>
    subst h
    have := msum_le_vsizeF fs
    simp [vsize]
    omega
  case arr xs =>
    subst h
    have := msum_enumFrom_le 0 xs
    simp [vsize]
    omega
  case str s =>
    subst h
    rw [msum_str_entries]
    simp [vsize]
  case num n => subst h; simp [msum, vsize]
  case bool v => subst h; simp [msum, vsize]

theorem msum_cons_obj (k : String) (v : Value) (rest : List (String × Value))
    (hv : isObjType v = true) : msum ((k, v) :: rest) = 1 + vsize v + msum rest := by
  simp [msum, hv]

theorem msum_cons_le (k : String) (v : Value) (rest : List (String × Value)) :
    msum rest ≤ msum ((k, v) :: rest) := by
  simp only [msum]
  omega

mutual

/-- `deepMerge(a, b)`: copy `a` via spread, then fold the entries of `b` into
the copy.  `Object.entries` throws a host `TypeError` when `b` is
`null`/`undefined`. -/
def deepMerge (a b : Value) : Except Exc Value :=
  match h : jsEntries b with
  | .error e => .error e
  | .ok entries =>
    match mergeInto (spreadFields a) entries with
    | .error e => .error e
    | .ok fs => .ok (.obj fs)
termination_by (vsize b, 0, 0)
decreasing_by
  exact Prod.Lex.left _ _ (msum_jsEntries_lt b entries h)

/-- The entry loop of `deepMerge`: for each entry of `b`, if the key is
already present and both the old and the new value have `typeof 'object'`,
merge recursively; otherwise the new value overwrites (or a fresh key is
appended). -/
def mergeInto (result : List (String × Value)) : List (String × Value) → Except Exc (List (String × Value))
  | [] => .ok result
  | (k, v) :: rest =>
    match lookupField result k with
    | some old =>
      if hvo : isObjType v && isObjType old then
        match deepMerge old v with
        | .error e => .error e
        | .ok m => mergeInto (replaceField result k m) rest
      else mergeInto (replaceField result k v) rest
    | none => mergeInto (result ++ [(k, v)]) rest
termination_by entries => (msum entries, 1, entries.length)
decreasing_by
  · have hv : isObjType v = true := by
      simp only [Bool.and_eq_true] at hvo
      exact hvo.1
    have := msum_cons_obj k v t hv
    exact Prod.Lex.left _ _ (by omega)
  · rcases lt_or_eq_of_le (msum_cons_le k v t) with hlt | heq
    · exact Prod.Lex.left _ _ hlt
    · rw [heq]
      exact Prod.Lex.right _ (Prod.Lex.right _ (by simp))
  · rcases lt_or_eq_of_le (msum_cons_le k v t) with hlt | heq
    · exact Prod.Lex.left _ _ hlt
    · rw [heq]
      exact Prod.Lex.right _ (Prod.Lex.right _ (by simp))
  · rcases lt_or_eq_of_le (msum_cons_le k v t) with hlt | heq
    · exact Prod.Lex.left _ _ hlt
    · rw [heq]
      exact Prod.Lex.right _ (Prod.Lex.right _ (by simp))

end

/-- The `reduce` loop of `allOf`: starting from the empty object, force-decode
each decoder on the same input and deep-merge its result into the
accumulator, aborting on the first exception. -/
def allOfGo (data : Value) (acc : Value) : List Decoder → Except Exc Value
  | [] => .ok acc
  | d :: rest =>
    match forceDecode d data with
    | .error e => .error e
    | .ok r =>
      match deepMerge acc r with
      | .error e => .error e
      | .ok m => allOfGo data m rest

/-- `allOf(...decoders)`. -/
def allOf (decoders : List Decoder) : Decoder :=
  createDecoder fun data => allOfGo data (.obj []) decoders

/-- `checkDictType`: a non-null, non-array object.  The model's objects carry
only string keys, so the source's symbol/non-string key rejection is
vacuously satisfied. -/
def checkDictTypeE (data : Value) : Except Exc Unit :=
  match data with
  | .obj _ => .ok ()
  | _ => .error (.decoderError (mkDecoderError ("This is not an object: " ++ showData data) []))

/-- The field loop of `required`: every field of the struct must be bound to
something other than `undefined`, then is decoded with its name as path
part. -/
def requiredGo (data : List (String × Value)) : List (String × Decoder) → Except Exc (List (String × Value))
  | [] => .ok []
  | (key, d) :: rest =>
    match lookupD data key with
    | .jsUndefined =>
      .error (.decoderError (mkDecoderError
        ("Object missing required property \x27" ++ key ++ "\x27") []))
    | v =>
      match forceDecodeWithPath d v key with
      | .error e => .error e
      | .ok r =>
        match requiredGo data rest with
        | .error e => .error e
        | .ok rs => .ok ((key, r) :: rs)

/-- The internal `required` object decoder. -/
def requiredD (struct : List (String × Decoder)) : Decoder :=
  createDecoder fun data =>
    match data with
    | .obj fields =>
      match requiredGo fields struct with
      | .error e => .error e
      | .ok rs => .ok (.obj rs)
    | _ => .error (.decoderError (mkDecoderError ("This is not an object: " ++ showData data) []))

/-- The field loop of `partial`: a field bound to `undefined` (or absent)
yields `none`; any other binding (including `null`) is decoded with its name
as path part and wrapped in `some`. -/
def partialGo (data : List (String × Value)) : List (String × Decoder) → Except Exc (List (String × Value))
  | [] => .ok []
  | (key, d) :: rest =>
    match lookupD data key with
    | .jsUndefined =>
      match partialGo data rest with
      | .error e => .error e
      | .ok rs => .ok ((key, noneV) :: rs)
    | v =>
      match forceDecodeWithPath d v key with
      | .error e => .error e
      | .ok r =>
        match partialGo data rest with
        | .error e => .error e
        | .ok rs => .ok ((key, someV r) :: rs)

/-- The internal `partial` object decoder. -/
def partialD (struct : List (String × Decoder)) : Decoder :=
  createDecoder fun data =>
    match data with
    | .obj fields =>
      match partialGo fields struct with
      | .error e => .error e
      | .ok rs => .ok (.obj rs)
    | _ => .error (.decoderError (mkDecoderError ("This is not an object: " ++ showData data) []))

/-- `Object.assign(base, v)`: copy the entries of `v` over `base`, replacing
in place or appending. -/
def assignFields (base : List (String × Value)) (v : Value) : List (String × Value) :=
  match spreadFields v with
  | [] => base
  | upd => upd.foldl (fun acc kv => replaceField acc kv.1 kv.2) base

/-- `structuredObject({required?, optional?})`: check definedness, then
`Object.assign` the result of the `required` decoder and then of the
`partial` decoder (each only when its struct was given) into a fresh
object. -/
def structuredObject (req opt : Option (List (String × Decoder))) : Decoder :=
  createDecoder fun data =>
    match checkDefinedE data with
    | .error e => .error e
    | .ok _ =>
      let step1 : Except Exc (List (String × Value)) :=
        match req with
        | none => .ok []
        | some struct =>
          match forceDecode (requiredD struct) data with
          | .error e => .error e
          | .ok v => .ok (assignFields [] v)
      match step1 with
      | .error e => .error e
      | .ok base =>
        match opt with
        | none => .ok (.obj base)
        | some struct =>
          match forceDecode (partialD struct) data with
          | .error e => .error e
          | .ok v => .ok (.obj (assignFields base v))

/-- The per-field marker consumed by the `object` sugar: either a plain
decoder (required) or one wrapped by `optional(...)`. -/
inductive FieldSpec where
  | plain (d : Decoder)
  | opt (d : Decoder)

/-- `optional(decoder)`: the marker routing a field into the optional bucket. -/
def optionalField (d : Decoder) : FieldSpec :=
  .opt d

/-- The required bucket of the `object` sugar's reduce, in declaration order. -/
def requiredBucket : List (String × FieldSpec) → List (String × Decoder)
  | [] => []
  | (k, .plain d) :: t => (k, d) :: requiredBucket t
  | (_, .opt _) :: t => requiredBucket t

/-- The optional bucket of the `object` sugar's reduce, in declaration order. -/
def optionalBucket : List (String × FieldSpec) → List (String × Decoder)
  | [] => []
  | (k, .opt d) :: t => (k, d) :: optionalBucket t
  | (_, .plain _) :: t => optionalBucket t

/-- `object(struct)`: split the fields into the two buckets, run
`structuredObject` on them, and reshape with an identity `andThen` (the
reshaping is a static-type cast). -/
def object (struct : List (String × FieldSpec)) : Decoder :=
  (structuredObject (some (requiredBucket struct)) (some (optionalBucket struct))).andThen .ok

/-- `recursive(supplier)`: re-resolve the supplier at each decode call and
force-decode with the resulting decoder. -/
def recursive (supplier : Unit → Decoder) : Decoder :=
  createDecoder fun data => forceDecode (supplier ()) data

/-- `nullable(decoder)`: `oneOf(decoder, null).andThen(fromNullable)`. -/
def nullable (d : Decoder) : Decoder :=
  (oneOf [d, null_]).andThen fun a => .ok (fromNullable a)

/-- The recursive category decoder of the claims —
`object({ name: string, subcategories: array(recursive(() => categoryDecoder)) })` —
embedded with a fuel bound on the recursion depth of the self-reference (the
lazy thunk of the source unfolds once per decode step; any fuel at least the
nesting depth of the input yields the same run). -/
def categoryDecoder : Nat → Decoder
  | 0 => never
  | n + 1 =>
    object
      [("name", .plain string),
       ("subcategories", .plain (array (recursive fun _ => categoryDecoder n)))]

/-- `isRight` of an fp-ts `Either`, specialized to decode results. -/
def isRight : Except DecoderError Value → Bool
  | .ok _ => true
  | .error _ => false

/-- The message a failing decoder contributes to the `oneOf` aggregate
(unused filler when the decoder succeeds). -/
def failMessage (d : Decoder) (v : Value) : String :=
  match d.decode v with
  | .error e => e.message
  | .ok _ => ""

/-- Pointwise success of a list of decoders on a list of inputs with the
given list of results. -/
def PointwiseOk : List Decoder → List Value → List Value → Prop
  | [], [], [] => True
  | d :: ds, x :: xs, r :: rs => d.decode x = .ok r ∧ PointwiseOk ds xs rs
  | _, _, _ => False

/-- The required phase of `structuredObject` succeeds (vacuous when no
required struct was given). -/
def ReqPhaseOk (req : Option (List (String × Decoder))) (v : Value) : Prop :=
  match req with
  | none => True
  | some struct => ∃ rv, forceDecode (requiredD struct) v = Except.ok rv

/-- The input of the path-accumulation claim, as written in the spec:
`{subcategories:[{subcategories:[{name: 1}]}]}` — note the outer two levels
carry no `name` field. -/
def origCatInput : Value :=
  .obj [("subcategories", .arr [
    .obj [("subcategories", .arr [
      .obj [("name", .num 1)]])]])]

/-- The path-accumulation input amended so that the outer two levels do carry
their required `name` field; the innermost `name` is still the number `1`. -/
def amendedCatInput : Value :=
  .obj [("name", .str "a"), ("subcategories", .arr [
    .obj [("name", .str "b"), ("subcategories", .arr [
      .obj [("name", .num 1)]])]])]

/-! ## General lemmas about the decoder contract -/

theorem decode_createDecoder (f : Value → Except Exc Value) (v : Value) :
    (createDecoder f).decode v =
      match f v with
      | .ok a => .ok a
      | .error (.decoderError e) => .error e
      | .error (.other _) => .error (mkDecoderError "Invalid data" []) := by
  rfl

theorem forceDecode_ok_iff (d : Decoder) (v : Value) (a : Value) :
    forceDecode d v = .ok a ↔ d.decode v = .ok a := by
  unfold forceDecode
  cases d.decode v <;> simp

theorem forceDecode_error_iff (d : Decoder) (v : Value) (e : DecoderError) :
    forceDecode d v = .error (.decoderError e) ↔ d.decode v = .error e := by
  unfold forceDecode
  cases d.decode v <;> simp

theorem forceDecodeWithPath_ok_iff (d : Decoder) (v : Value) (p : String) (a : Value) :
    forceDecodeWithPath d v p = .ok a ↔ d.decode v = .ok a := by
  unfold forceDecodeWithPath forceDecode
  cases d.decode v <;> simp

theorem forceDecodeWithPath_error (d : Decoder) (v : Value) (p : String) (e : DecoderError)
    (h : d.decode v = .error e) :
    forceDecodeWithPath d v p = .error (.decoderError (mkDecoderError e.message (p :: e.path))) := by
  unfold forceDecodeWithPath forceDecode
  rw [h]

/-! ## C1 — `decode` never raises -/

/-- C1: for every decoder built by `createDecoder` and every input, `decode`
returns the result union rather than raising: a successful `forceDecode`
becomes the success side, a thrown `DecoderError` is returned as the error
side unchanged, and any other thrown exception — whatever its detail `m` —
becomes the generic `DecoderError('Invalid data')` with empty path. -/
theorem decode_wraps_every_failure (f : Value → Except Exc Value) (v : Value) :
    (∀ a, f v = .ok a → (createDecoder f).decode v = .ok a) ∧
    (∀ e, f v = .error (.decoderError e) → (createDecoder f).decode v = .error e) ∧
    (∀ m, f v = .error (.other m) →
      (createDecoder f).decode v = .error (mkDecoderError "Invalid data" [])) := by
  refine ⟨?_, ?_, ?_⟩ <;> intro x h <;> simp [Decoder.decode, createDecoder, h]

theorem decode_wraps_every_failure_witness :
    (createDecoder fun _ => .error (.other "RangeError: boom")).decode .vnull
      = .error (mkDecoderError "Invalid data" []) :=
  (decode_wraps_every_failure (fun _ => .error (.other "RangeError: boom")) .vnull).2.2
    "RangeError: boom" rfl

/-! ## C2 — `is` is the boolean image of `decode` -/

/-- C2: for every decoder built by `createDecoder` and every input, `is`
returns `true` exactly when `decode` returns the success side, and returns
`false` for every kind of raised failure, `DecoderError` or not. -/
theorem is_agrees_with_decode (f : Value → Except Exc Value) (v : Value) :
    (createDecoder f).is v = isRight ((createDecoder f).decode v) ∧
    (∀ exc, f v = .error exc → (createDecoder f).is v = false) := by
  constructor
  · match hf : f v with
    | .ok a => simp [Decoder.is, Decoder.decode, createDecoder, isRight, hf]
    | .error (.decoderError e) => simp [Decoder.is, Decoder.decode, createDecoder, isRight, hf]
    | .error (.other m) => simp [Decoder.is, Decoder.decode, createDecoder, isRight, hf]
  · intro exc h
    simp [Decoder.is, createDecoder, h]

theorem is_agrees_with_decode_witness :
    (createDecoder fun _ => .error (.other "TypeError: boom")).is (.num 3) = false :=
  (is_agrees_with_decode (fun _ => .error (.other "TypeError: boom")) (.num 3)).2
    (.other "TypeError: boom") rfl

/-! ## C8 — the `DecoderError` message prefix rule -/

/-- C8: a failure constructed from message `m` and path `p` keeps `p` and
renders its message once, at construction: `m` unchanged for an empty path,
`"seg: m"` for a single segment, and `"first.m"` — the first segment, a dot,
and `m`, with no further prefixing of the remaining segments — for a longer
path. -/
theorem decoderError_message_prefix (m : String) :
    ((mkDecoderError m []).message = m ∧ (mkDecoderError m []).path = []) ∧
    (∀ s, (mkDecoderError m [s]).message = s ++ ": " ++ m ∧ (mkDecoderError m [s]).path = [s]) ∧
    (∀ s t rest, (mkDecoderError m (s :: t :: rest)).message = s ++ "." ++ m ∧
      (mkDecoderError m (s :: t :: rest)).path = s :: t :: rest) := by
  refine ⟨⟨rfl, rfl⟩, fun s => ⟨rfl, rfl⟩, fun s t rest => ⟨rfl, rfl⟩⟩

/-! ## C3 — `oneOf` tries in order, first success wins, failures aggregate -/

theorem oneOfGo_first_success (v : Value) (ds1 : List Decoder) (d : Decoder) (ds2 : List Decoder)
    (a : Value) (h1 : ∀ d' ∈ ds1, ∃ e, d'.decode v = .error e) (h2 : d.decode v = .ok a) :
    ∀ errs, oneOfGo v (ds1 ++ d :: ds2) errs = .ok a := by
  induction ds1 with
  | nil =>
    intro errs
    simp only [List.nil_append, oneOfGo, h2]
  | cons d' t ih =>
    intro errs
    obtain ⟨e, he⟩ := h1 d' (by simp)
    simp only [List.cons_append, oneOfGo, he]
    exact ih (fun d'' hd'' => h1 d'' (by simp [hd''])) _

theorem oneOfGo_all_fail (v : Value) (ds : List Decoder)
    (h : ∀ d ∈ ds, ∃ e, d.decode v = .error e) :
    ∀ errs, oneOfGo v ds errs = .error (.decoderError (mkDecoderError
      ("None of the decoders worked:\n" ++
        showData (.arr ((errs ++ ds.map (failMessage · v)).map .str))) [])) := by
  induction ds with
  | nil =>
    intro errs
    simp [oneOfGo]
  | cons d t ih =>
    intro errs
    obtain ⟨e, he⟩ := h d (by simp)
    have hm : failMessage d v = e.message := by simp [failMessage, he]
    simp only [oneOfGo, he]
    rw [ih (fun d' hd' => h d' (by simp [hd']))]
    simp [hm]

/-- C3: `oneOf` runs its decoders in the given order against the same input —
whenever every decoder of some prefix fails and the next one succeeds, the
whole `oneOf` returns that first success (so later decoders cannot affect
the result); and when all decoders fail, it fails with the aggregate of
every sub-decoder's message, in order, and an empty path.  Each decoder's
verdict is consulted exactly once in the run, as the loop shape of
`oneOfGo` shows. -/
theorem oneOf_first_success_or_aggregate (v : Value) :
    (∀ ds1 d ds2 a, (∀ d' ∈ ds1, ∃ e, d'.decode v = .error e) → d.decode v = .ok a →
      (oneOf (ds1 ++ d :: ds2)).decode v = .ok a) ∧
    (∀ ds, (∀ d ∈ ds, ∃ e, d.decode v = .error e) →
      (oneOf ds).decode v = .error (mkDecoderError
        ("None of the decoders worked:\n" ++
          showData (.arr ((ds.map (failMessage · v)).map .str))) [])) := by
  constructor
  · intro ds1 d ds2 a h1 h2
    have := oneOfGo_first_success v ds1 d ds2 a h1 h2 []
    simp [oneOf, Decoder.decode, createDecoder, this]
  · intro ds h
    have := oneOfGo_all_fail v ds h []
    simp only [List.nil_append] at this
    simp [oneOf, Decoder.decode, createDecoder, this]

theorem oneOf_first_success_or_aggregate_witness :
    (oneOf [number, null_]).decode .vnull = .ok .vnull :=
  (oneOf_first_success_or_aggregate .vnull).1 [number] null_ [] .vnull
    (by
      intro d' hd'
      simp only [List.mem_singleton] at hd'
      subst hd'
      exact ⟨mkDecoderError "This value is not there" [], rfl⟩)
    rfl

/-! ## C10 — `nullable` -/

/-- C10: for every decoder `d`: when `d` itself fails on `null`,
`nullable(d)` maps `null` to the success `none`; when `d` fails on
`undefined`, `nullable(d)` fails on `undefined`; and on any input that `d`
decodes to a non-null, non-undefined value `w`, `nullable(d)` succeeds with
`some w`. -/
theorem nullable_spec (d : Decoder) :
    ((∃ e, d.decode .vnull = .error e) → (nullable d).decode .vnull = .ok noneV) ∧
    ((∃ e, d.decode .jsUndefined = .error e) → ∃ e', (nullable d).decode .jsUndefined = .error e') ∧
    (∀ x w, d.decode x = .ok w → w ≠ .vnull → w ≠ .jsUndefined →
      (nullable d).decode x = .ok (someV w)) := by
  refine ⟨?_, ?_, ?_⟩
  · rintro ⟨e, he⟩
    have hn : null_.decode .vnull = .ok .vnull := rfl
    have h1 : (oneOf [d, null_]).forceDecode .vnull = .ok .vnull := by
      simp [oneOf, createDecoder, oneOfGo, he, hn]
    simp [nullable, Decoder.andThen, Decoder.decode, createDecoder, h1, fromNullable]
  · rintro ⟨e, he⟩
    have hfail : ∀ d' ∈ [d, null_], ∃ e', d'.decode .jsUndefined = .error e' := by
      intro d' hd'
      simp only [List.mem_cons, List.mem_singleton, List.not_mem_nil, or_false] at hd'
      rcases hd' with h | h
      · subst h; exact ⟨e, he⟩
      · subst h; exact ⟨mkDecoderError "Provided value is not null." [], rfl⟩
    have hgo := oneOfGo_all_fail .jsUndefined [d, null_] hfail []
    simp only [List.nil_append] at hgo
    have h1 : (oneOf [d, null_]).forceDecode .jsUndefined = oneOfGo .jsUndefined [d, null_] [] := rfl
    refine ⟨mkDecoderError ("None of the decoders worked:\n" ++
      showData (.arr (([d, null_].map (failMessage · .jsUndefined)).map .str))) [], ?_⟩
    simp [nullable, Decoder.andThen, Decoder.decode, createDecoder, h1, hgo]
  · intro x w hw hw1 hw2
    have h1 : (oneOf [d, null_]).forceDecode x = .ok w := by
      simp [oneOf, createDecoder, oneOfGo, hw]
    have hfrom : fromNullable w = someV w := by
      cases w <;> simp_all [fromNullable]
    simp [nullable, Decoder.andThen, Decoder.decode, createDecoder, h1, hfrom]

theorem nullable_spec_witness :
    (nullable string).decode .vnull = .ok noneV ∧
    (nullable string).decode (.str "test") = .ok (someV (.str "test")) :=
  ⟨(nullable_spec string).1 ⟨mkDecoderError "This value is not there" [], rfl⟩,
   (nullable_spec string).2.2 (.str "test") (.str "test") rfl (by simp) (by simp)⟩

/-! ## C9 — primitive decoders on `null` / `undefined` -/

/-- C9 counterexample: `unknown` is one of the primitive decoders exported by
the library (the passthrough leaf), yet its `decode` succeeds on both `null`
and the `undefined` sentinel, so the claim that every primitive decoder but
`null` fails there is false. -/
theorem unknown_accepts_null_counterexample :
    unknown.decode .vnull = .ok .vnull ∧ unknown.decode .jsUndefined = .ok .jsUndefined :=
  ⟨rfl, rfl⟩

/-- C9 amended: every input-checking primitive decoder — `string`, `number`,
`boolean`, `literal(v)`, `literalUnion(...)`, `regex(...)`, `never` — fails on
both the `undefined` sentinel and `null`; the dedicated `null` decoder
succeeds exactly on the literal `null` and fails on everything else; and the
non-checking primitives `unknown` and `succeed(v)` succeed even on `null`
and `undefined`. -/
theorem primitives_reject_null_undefined_amended :
    (string.decode .vnull = .error (mkDecoderError "This value is not there" []) ∧
     string.decode .jsUndefined = .error (mkDecoderError "This value is not there" [])) ∧
    (number.decode .vnull = .error (mkDecoderError "This value is not there" []) ∧
     number.decode .jsUndefined = .error (mkDecoderError "This value is not there" [])) ∧
    (boolean.decode .vnull = .error (mkDecoderError "This value is not there" []) ∧
     boolean.decode .jsUndefined = .error (mkDecoderError "This value is not there" [])) ∧
    (∀ lit, (literal lit).decode .vnull = .error (mkDecoderError "This value is not there" []) ∧
      (literal lit).decode .jsUndefined = .error (mkDecoderError "This value is not there" [])) ∧
    (∀ lits, (∃ e, (literalUnion lits).decode .vnull = .error e) ∧
      (∃ e, (literalUnion lits).decode .jsUndefined = .error e)) ∧
    (∀ test patStr, (regex test patStr).decode .vnull =
        .error (mkDecoderError "This value is not there" []) ∧
      (regex test patStr).decode .jsUndefined = .error (mkDecoderError "This value is not there" [])) ∧
    (never.decode .vnull = .error (mkDecoderError "This field must never be present" []) ∧
     never.decode .jsUndefined = .error (mkDecoderError "This field must never be present" [])) ∧
    (null_.decode .vnull = .ok .vnull ∧
     (∀ v, v ≠ .vnull → null_.decode v = .error (mkDecoderError "Provided value is not null." []))) ∧
    (unknown.decode .vnull = .ok .vnull ∧ unknown.decode .jsUndefined = .ok .jsUndefined) ∧
    (∀ w, (succeed w).decode .vnull = .ok w ∧ (succeed w).decode .jsUndefined = .ok w) := by
  have hlitU : ∀ (lits : List Value) (v : Value),
      v = .vnull ∨ v = .jsUndefined → ∃ e, (literalUnion lits).decode v = .error e := by
    intro lits v hv
    have hfail : ∀ d ∈ lits.map literal, ∃ e, d.decode v = .error e := by
      intro d hd
      obtain ⟨lit, _, hlit⟩ := List.mem_map.mp hd
      subst hlit
      rcases hv with h | h <;> subst h <;>
        exact ⟨mkDecoderError "This value is not there" [], rfl⟩
    have hgo := oneOfGo_all_fail v (lits.map literal) hfail []
    simp only [List.nil_append] at hgo
    refine ⟨mkDecoderError ("None of the decoders worked:\n" ++
      showData (.arr (((lits.map literal).map (failMessage · v)).map .str))) [], ?_⟩
    simp [literalUnion, oneOf, Decoder.decode, createDecoder, hgo]
  refine ⟨⟨rfl, rfl⟩, ⟨rfl, rfl⟩, ⟨rfl, rfl⟩, fun lit => ⟨rfl, rfl⟩,
    fun lits => ⟨hlitU lits .vnull (Or.inl rfl), hlitU lits .jsUndefined (Or.inr rfl)⟩,
    fun test patStr => ⟨rfl, rfl⟩, ⟨rfl, rfl⟩,
    ⟨rfl, ?_⟩, ⟨rfl, rfl⟩, fun w => ⟨rfl, rfl⟩⟩
  intro v hv
  cases v <;> first | rfl | exact absurd rfl hv

theorem primitives_reject_null_undefined_amended_witness :
    null_.decode (.num 0) = .error (mkDecoderError "Provided value is not null." []) :=
  primitives_reject_null_undefined_amended.2.2.2.2.2.2.2.1.2 (.num 0) (by simp)

/-! ## C5 — `tuple` -/

theorem tupleGo_append (xs : List Value) (ds1 ds2 : List Decoder) :
    ∀ i rs, tupleGo xs i ds1 = .ok rs →
      tupleGo xs i (ds1 ++ ds2) =
        match tupleGo xs (i + ds1.length) ds2 with
        | .ok rs2 => .ok (rs ++ rs2)
        | .error e => .error e := by
  induction ds1 with
  | nil =>
    intro i rs h
    simp only [tupleGo] at h
    cases h
    simp only [List.nil_append, List.length_nil, Nat.add_zero]
    cases tupleGo xs i ds2 <;> simp
  | cons d t ih =>
    intro i rs h
    simp only [tupleGo] at h
    match hf : forceDecodeWithPath d (xs.getD i .jsUndefined) (toString i) with
    | .error e => rw [hf] at h; exact absurd h (by simp)
    | .ok r =>
      rw [hf] at h
      match hr : tupleGo xs (i + 1) t with
      | .error e => rw [hr] at h; exact absurd h (by simp)
      | .ok rs' =>
        rw [hr] at h
        simp only [Except.ok.injEq] at h
        subst h
        simp only [List.cons_append, tupleGo, hf, List.append_eq]
        rw [ih (i + 1) rs' hr]
        have : i + 1 + t.length = i + (t.length + 1) := by omega
        rw [this]
        cases hM : tupleGo xs (i + (t.length + 1)) ds2 <;> simp [hM]

theorem tupleGo_error_at (xs : List Value) (ds1 : List Decoder) (d : Decoder)
    (ds2 : List Decoder) (rs : List Value) (e : DecoderError)
    (hpre : tupleGo xs 0 ds1 = .ok rs)
    (herr : d.decode (xs.getD ds1.length .jsUndefined) = .error e) :
    tupleGo xs 0 (ds1 ++ d :: ds2) =
      .error (.decoderError (mkDecoderError e.message (toString ds1.length :: e.path))) := by
  rw [tupleGo_append xs ds1 (d :: ds2) 0 rs hpre]
  simp only [Nat.zero_add]
  rw [show tupleGo xs ds1.length (d :: ds2) =
      .error (.decoderError (mkDecoderError e.message (toString ds1.length :: e.path))) from ?_]
  · simp only [tupleGo, forceDecodeWithPath_error d _ _ e herr]

theorem tupleGo_take (xs : List Value) (n : Nat) (ds : List Decoder) :
    ∀ i, i + ds.length ≤ n → tupleGo xs i ds = tupleGo (xs.take n) i ds := by
  induction ds with
  | nil => intro i _; simp [tupleGo]
  | cons d t ih =>
    intro i hle
    have hi : i < n := by simp at hle; omega
    have hget : (xs.take n).getD i .jsUndefined = xs.getD i .jsUndefined := by
      simp [List.getD_eq_getElem?_getD, List.getElem?_take, hi]
    simp only [tupleGo, hget]
    rw [ih (i + 1) (by simp at hle ⊢; omega)]

theorem tupleGo_pointwise (ds : List Decoder) :
    ∀ i (xs rs : List Value), PointwiseOk ds ((xs.drop i).take ds.length) rs →
      i + ds.length ≤ xs.length → tupleGo xs i ds = .ok rs := by
  induction ds with
  | nil =>
    intro i xs rs hpt _
    match rs with
    | [] => simp [tupleGo]
    | r :: rs' => exact absurd hpt (by simp [PointwiseOk])
  | cons d t ih =>
    intro i xs rs hpt hlen
    have hi : i < xs.length := by simp at hlen; omega
    have hdrop : xs.drop i = xs[i] :: xs.drop (i + 1) := List.drop_eq_getElem_cons hi
    rw [hdrop] at hpt
    simp only [List.length_cons, List.take_succ_cons] at hpt
    match rs with
    | [] => exact absurd hpt (by simp [PointwiseOk])
    | r :: rs' =>
      simp only [PointwiseOk] at hpt
      obtain ⟨hd, hrest⟩ := hpt
      have hget : xs.getD i .jsUndefined = xs[i] := List.getD_eq_getElem xs .jsUndefined hi
      simp only [tupleGo, hget]
      rw [(forceDecodeWithPath_ok_iff d xs[i] (toString i) r).mpr hd]
      rw [ih (i + 1) xs rs' hrest (by simp at hlen ⊢; omega)]

/-- C5 amended: for a sequence input, `tuple(d1..dn).decode(seq)` fails with
the length error iff `length(seq) < n`; when `length(seq) ≥ n` the trailing
elements beyond position `n-1` are silently discarded (the run only depends
on the first `n` elements), a failure at position `i` — which is also
possible despite a sufficient length — aborts with that failure and the
index `i` (as a string) prepended to its path, and when all `n` positions
decode the result is exactly the `n` decoded elements. -/
theorem tuple_spec_amended :
    (∀ (ds : List Decoder) (xs : List Value), xs.length < ds.length →
      (tuple ds).decode (.arr xs) = .error (mkDecoderError
        ("The tuple is not long enough. " ++ toString ds.length ++ " > " ++
          toString xs.length) [])) ∧
    (∀ (ds : List Decoder) (xs : List Value), ds.length ≤ xs.length →
      (tuple ds).decode (.arr xs) = (tuple ds).decode (.arr (xs.take ds.length))) ∧
    (∀ (ds1 : List Decoder) (d : Decoder) (ds2 : List Decoder) (xs rs : List Value)
        (e : DecoderError),
      (ds1 ++ d :: ds2).length ≤ xs.length →
      tupleGo xs 0 ds1 = .ok rs →
      d.decode (xs.getD ds1.length .jsUndefined) = .error e →
      (tuple (ds1 ++ d :: ds2)).decode (.arr xs) =
        .error (mkDecoderError e.message (toString ds1.length :: e.path))) ∧
    (∀ (ds : List Decoder) (xs rs : List Value), ds.length ≤ xs.length →
      PointwiseOk ds (xs.take ds.length) rs →
      (tuple ds).decode (.arr xs) = .ok (.arr rs)) := by
  refine ⟨?_, ?_, ?_, ?_⟩
  · intro ds xs hlt
    simp [tuple, Decoder.decode, createDecoder, checkDefinedE, hlt]
  · intro ds xs hle
    have h1 : ¬ xs.length < ds.length := Nat.not_lt.mpr hle
    have h2 : ¬ (xs.take ds.length).length < ds.length := by
      simp only [List.length_take]
      omega
    have h3 := tupleGo_take xs ds.length ds 0 (by omega)
    simp [tuple, Decoder.decode, createDecoder, checkDefinedE, h1, h2, h3]
  · intro ds1 d ds2 xs rs e hlen hpre herr
    have h1 : ¬ xs.length < (ds1 ++ d :: ds2).length := Nat.not_lt.mpr hlen
    have h2 := tupleGo_error_at xs ds1 d ds2 rs e hpre herr
    simp only [tuple, Decoder.decode, createDecoder, checkDefinedE]
    rw [if_neg h1, h2]
  · intro ds xs rs hle hpt
    have h1 : ¬ xs.length < ds.length := Nat.not_lt.mpr hle
    have h2 := tupleGo_pointwise ds 0 xs rs (by simpa using hpt) (by omega)
    simp [tuple, Decoder.decode, createDecoder, checkDefinedE, h1, h2]

theorem tuple_spec_amended_witness :
    (tuple [unknown, string]).decode (.arr [.num 7]) =
      .error (mkDecoderError
        ("The tuple is not long enough. " ++ toString ([unknown, string].length) ++ " > " ++
          toString ([Value.num 7].length)) []) ∧
    (tuple [unknown]).decode (.arr [.num 7, .str "extra"]) = .ok (.arr [.num 7]) :=
  ⟨tuple_spec_amended.1 [unknown, string] [.num 7] (by simp),
   tuple_spec_amended.2.2.2 [unknown] [.num 7, .str "extra"] [.num 7] (by simp)
     (by simp [PointwiseOk]; rfl)⟩

/-! ## C4 — `allOf` and `deepMerge` -/

theorem allOfGo_append (v : Value) (ds1 ds2 : List Decoder) :
    ∀ acc m, allOfGo v acc ds1 = .ok m → allOfGo v acc (ds1 ++ ds2) = allOfGo v m ds2 := by
  induction ds1 with
  | nil =>
    intro acc m h
    simp only [allOfGo] at h
    cases h
    simp
  | cons d t ih =>
    intro acc m h
    simp only [allOfGo] at h
    simp only [List.cons_append, allOfGo]
    split at h
    · exact absurd h (by simp)
    · rename_i r heq
      split at h
      · exact absurd h (by simp)
      · rename_i m' hm
        exact ih m' m h

/-- C4 counterexample: two record-producing decoders that both produce an
array at the key `"a"`.  The claim predicts the later array overwrites the
earlier one, but `deepMerge`'s recursion condition is host `typeof 'object'`,
which is true of arrays, so the two arrays are merged as index-keyed records:
the decode yields `{a: {"0": 2}}`, not `{a: [2]}`. -/
theorem allOf_overwrite_counterexample :
    (allOf [succeed (.obj [("a", .arr [.num 1])]),
            succeed (.obj [("a", .arr [.num 2])])]).decode (.obj [])
      = .ok (.obj [("a", .obj [("0", .num 2)])]) ∧
    Value.obj [("0", .num 2)] ≠ Value.arr [.num 2] := by
  constructor
  · have h0 : toString (0 : Nat) = "0" := rfl
    simp [allOf, allOfGo, Decoder.decode, createDecoder, forceDecode, succeed,
      deepMerge, mergeInto, jsEntries, spreadFields, enumFrom, lookupField, replaceField,
      isObjType, h0]
  · intro h
    exact Value.noConfusion h

/-- C4 amended: `allOf` starts from the empty object and combines results
left to right by `deepMerge`; the first sub-decoder failure aborts the whole
operation with exactly that failure (whatever follows it), not an aggregate.
At a key present on both sides the merge recurses whenever both values have
host `typeof 'object'` — records, arrays, or `null` — (arrays being merged
as index-keyed records, and a `null` right-hand value raising a host
`TypeError`, which `decode` then reports as the generic failure); only when
at least one side is not object-typed does the later decoder's value
overwrite the earlier one. -/
theorem allOf_merge_spec_amended (v : Value) :
    ((allOf []).decode v = .ok (.obj [])) ∧
    (∀ ds1 d ds2 acc e, allOfGo v (.obj []) ds1 = .ok acc → d.decode v = .error e →
      (allOf (ds1 ++ d :: ds2)).decode v = .error e) ∧
    (∀ ds1 d ds2 acc r m, allOfGo v (.obj []) ds1 = .ok acc → d.decode v = .ok r →
      deepMerge acc r = .ok m →
      allOfGo v (.obj []) (ds1 ++ d :: ds2) = allOfGo v m ds2) ∧
    (∀ k old new, (isObjType new && isObjType old) = false →
      deepMerge (.obj [(k, old)]) (.obj [(k, new)]) = .ok (.obj [(k, new)])) ∧
    (∀ k fa fb m, deepMerge (.obj fa) (.obj fb) = .ok m →
      deepMerge (.obj [(k, .obj fa)]) (.obj [(k, .obj fb)]) = .ok (.obj [(k, m)])) ∧
    (∀ k old, isObjType old = true →
      deepMerge (.obj [(k, old)]) (.obj [(k, .vnull)]) =
        .error (.other "TypeError: Cannot convert undefined or null to object")) := by
  refine ⟨rfl, ?_, ?_, ?_, ?_, ?_⟩
  · intro ds1 d ds2 acc e hpre herr
    have h1 := allOfGo_append v ds1 (d :: ds2) (.obj []) acc hpre
    have h2 : forceDecode d v = .error (.decoderError e) := (forceDecode_error_iff d v e).mpr herr
    simp only [allOfGo, h2] at h1
    simp [allOf, Decoder.decode, createDecoder, h1]
  · intro ds1 d ds2 acc r m hpre hok hm
    have h1 := allOfGo_append v ds1 (d :: ds2) (.obj []) acc hpre
    have h2 : forceDecode d v = .ok r := (forceDecode_ok_iff d v r).mpr hok
    simp only [allOfGo, h2, hm] at h1
    exact h1
  · intro k old new h
    simp [deepMerge, mergeInto, jsEntries, spreadFields, lookupField, replaceField, h]
  · intro k fa fb m h
    have h1 : isObjType (.obj fa) = true := rfl
    have h2 : isObjType (.obj fb) = true := rfl
    simp [deepMerge, mergeInto, jsEntries, spreadFields, lookupField, replaceField, h1, h2, h]
  · intro k old h
    have hv : isObjType Value.vnull = true := rfl
    simp [deepMerge, mergeInto, jsEntries, spreadFields, lookupField, replaceField, hv, h]

theorem allOf_merge_spec_amended_witness :
    (allOf [never]).decode .vnull =
      .error (mkDecoderError "This field must never be present" []) :=
  (allOf_merge_spec_amended .vnull).2.1 [] never [] (.obj [])
    (mkDecoderError "This field must never be present" []) rfl rfl

/-! ## C6 — `structuredObject` optional fields -/

theorem lookupField_replaceField_self (l : List (String × Value)) (k : String) (v : Value) :
    lookupField (replaceField l k v) k = some v := by
  induction l with
  | nil => simp [replaceField, lookupField]
  | cons h t ih =>
    obtain ⟨k', w⟩ := h
    by_cases hk : k' = k
    · subst hk
      simp [replaceField, lookupField]
    · simp [replaceField, lookupField, hk, ih]

theorem lookupField_replaceField_ne (l : List (String × Value)) (k' k : String) (v : Value)
    (h : k' ≠ k) : lookupField (replaceField l k' v) k = lookupField l k := by
  induction l with
  | nil => simp [replaceField, lookupField, h]
  | cons hd t ih =>
    obtain ⟨k'', w⟩ := hd
    by_cases hk : k'' = k'
    · subst hk
      simp [replaceField, lookupField, h]
    · simp only [replaceField, lookupField, if_neg hk, ih]

theorem lookupField_foldl_replace_not_mem (rest : List (String × Value)) (f : String)
    (h : f ∉ rest.map Prod.fst) :
    ∀ base, lookupField (rest.foldl (fun acc kv => replaceField acc kv.1 kv.2) base) f =
      lookupField base f := by
  induction rest with
  | nil => intro base; simp
  | cons hd t ih =>
    intro base
    obtain ⟨k, v⟩ := hd
    simp only [List.map_cons, List.mem_cons] at h
    push_neg at h
    simp only [List.foldl_cons]
    rw [ih h.2 (replaceField base k v)]
    exact lookupField_replaceField_ne base k f v (fun hk => h.1 hk.symm)

theorem lookupField_foldl_replace (rs : List (String × Value)) (f : String) (mval : Value) :
    lookupField rs f = some mval → (rs.map Prod.fst).Nodup →
    ∀ base, lookupField (rs.foldl (fun acc kv => replaceField acc kv.1 kv.2) base) f =
      some mval := by
  induction rs with
  | nil => intro h; simp [lookupField] at h
  | cons hd t ih =>
    intro h hnd base
    obtain ⟨k, v⟩ := hd
    simp only [List.map_cons, List.nodup_cons] at hnd
    simp only [lookupField] at h
    by_cases hk : k = f
    · subst hk
      simp at h
      subst h
      simp only [List.foldl_cons]
      rw [lookupField_foldl_replace_not_mem t k hnd.1 (replaceField base k v)]
      exact lookupField_replaceField_self base k v
    · rw [if_neg hk] at h
      simp only [List.foldl_cons]
      exact ih h hnd.2 (replaceField base k v)

theorem lookupField_assignFields (base : List (String × Value)) (rs : List (String × Value))
    (f : String) (mval : Value) (h : lookupField rs f = some mval)
    (hnd : (rs.map Prod.fst).Nodup) :
    lookupField (assignFields base (.obj rs)) f = some mval := by
  match rs with
  | [] => simp [lookupField] at h
  | (k, v) :: t =>
    simp only [assignFields, spreadFields]
    exact lookupField_foldl_replace ((k, v) :: t) f mval h hnd base

theorem partialGo_append (fields : List (String × Value)) (l1 l2 : List (String × Decoder)) :
    ∀ rs1, partialGo fields l1 = .ok rs1 →
      partialGo fields (l1 ++ l2) =
        match partialGo fields l2 with
        | .ok rs2 => .ok (rs1 ++ rs2)
        | .error e => .error e := by
  induction l1 with
  | nil =>
    intro rs1 h
    simp only [partialGo] at h
    cases h
    simp only [List.nil_append]
    cases partialGo fields l2 <;> simp
  | cons hd t ih =>
    intro rs1 h
    obtain ⟨key, d⟩ := hd
    simp only [partialGo] at h
    simp only [List.cons_append, partialGo, List.append_eq]
    split at h
    · split at h
      · exact absurd h (by simp)
      · rename_i rs' hrs
        simp only [Except.ok.injEq] at h
        subst h
        rw [ih rs' hrs]
        cases partialGo fields l2 <;> simp
    · split at h
      · exact absurd h (by simp)
      · rename_i r hr
        split at h
        · exact absurd h (by simp)
        · rename_i rs' hrs
          simp only [Except.ok.injEq] at h
          subst h
          rw [ih rs' hrs]
          cases partialGo fields l2 <;> simp

theorem partialGo_lookup_absent (fields : List (String × Value)) (f : String) (df : Decoder) :
    ∀ (opts : List (String × Decoder)) rs, (f, df) ∈ opts →
      ((opts.map Prod.fst).Nodup) → lookupD fields f = .jsUndefined →
      partialGo fields opts = .ok rs → lookupField rs f = some noneV := by
  intro opts
  induction opts with
  | nil => intro rs h; simp at h
  | cons hd t ih =>
    intro rs hmem hnd hund h
    obtain ⟨key, d⟩ := hd
    simp only [List.map_cons, List.nodup_cons] at hnd
    by_cases hk : key = f
    · subst hk
      simp only [partialGo, hund] at h
      split at h
      · exact absurd h (by simp)
      · rename_i rs' hrs
        simp only [Except.ok.injEq] at h
        subst h
        simp [lookupField]
    · have hmem' : (f, df) ∈ t := by
        rcases List.mem_cons.mp hmem with heq | ht
        · exact absurd (congrArg Prod.fst heq).symm hk
        · exact ht
      simp only [partialGo] at h
      split at h
      · split at h
        · exact absurd h (by simp)
        · rename_i rs' hrs
          simp only [Except.ok.injEq] at h
          subst h
          simp only [lookupField, if_neg hk]
          exact ih rs' hmem' hnd.2 hund hrs
      · split at h
        · exact absurd h (by simp)
        · rename_i r hr
          split at h
          · exact absurd h (by simp)
          · rename_i rs' hrs
            simp only [Except.ok.injEq] at h
            subst h
            simp only [lookupField, if_neg hk]
            exact ih rs' hmem' hnd.2 hund hrs

theorem partialGo_lookup_present (fields : List (String × Value)) (f : String) (df : Decoder)
    (w r : Value) :
    ∀ (opts : List (String × Decoder)) rs, (f, df) ∈ opts →
      ((opts.map Prod.fst).Nodup) → lookupD fields f = w → w ≠ .jsUndefined →
      df.decode w = .ok r →
      partialGo fields opts = .ok rs → lookupField rs f = some (someV r) := by
  intro opts
  induction opts with
  | nil => intro rs h; simp at h
  | cons hd t ih =>
    intro rs hmem hnd hw hwne hdec h
    obtain ⟨key, d⟩ := hd
    simp only [List.map_cons, List.nodup_cons] at hnd
    by_cases hk : key = f
    · subst hk
      have hdf : d = df := by
        rcases List.mem_cons.mp hmem with heq | ht
        · exact (Prod.ext_iff.mp heq.symm).2
        · have hf : key ∈ t.map Prod.fst := by
            have := List.mem_map_of_mem Prod.fst ht
            simpa using this
          exact absurd hf hnd.1
      subst hdf
      have hfd : forceDecodeWithPath d (lookupD fields key) key = .ok r := by
        rw [hw]
        exact (forceDecodeWithPath_ok_iff d w key r).mpr hdec
      simp only [partialGo] at h
      split at h
      · rename_i hund
        exact absurd (hw.symm.trans hund) hwne
      · split at h
        · rename_i e he
          rw [hfd] at he
          exact absurd he (by simp)
        · rename_i r' hr'
          rw [hfd] at hr'
          simp only [Except.ok.injEq] at hr'
          subst hr'
          split at h
          · exact absurd h (by simp)
          · rename_i rs' hrs
            simp only [Except.ok.injEq] at h
            subst h
            simp [lookupField]
    · have hmem' : (f, df) ∈ t := by
        rcases List.mem_cons.mp hmem with heq | ht
        · exact absurd (congrArg Prod.fst heq).symm hk
        · exact ht
      simp only [partialGo] at h
      split at h
      · split at h
        · exact absurd h (by simp)
        · rename_i rs' hrs
          simp only [Except.ok.injEq] at h
          subst h
          simp only [lookupField, if_neg hk]
          exact ih rs' hmem' hnd.2 hw hwne hdec hrs
      · split at h
        · exact absurd h (by simp)
        · rename_i r'' hr''
          split at h
          · exact absurd h (by simp)
          · rename_i rs' hrs
            simp only [Except.ok.injEq] at h
            subst h
            simp only [lookupField, if_neg hk]
            exact ih rs' hmem' hnd.2 hw hwne hdec hrs

theorem partialGo_keys (fields : List (String × Value)) :
    ∀ (opts : List (String × Decoder)) rs, partialGo fields opts = .ok rs →
      rs.map Prod.fst = opts.map Prod.fst := by
  intro opts
  induction opts with
  | nil =>
    intro rs h
    simp only [partialGo] at h
    cases h
    simp
  | cons hd t ih =>
    intro rs h
    obtain ⟨key, d⟩ := hd
    simp only [partialGo] at h
    split at h
    · split at h
      · exact absurd h (by simp)
      · rename_i rs' hrs
        simp only [Except.ok.injEq] at h
        subst h
        simp [ih rs' hrs]
    · split at h
      · exact absurd h (by simp)
      · rename_i r hr
        split at h
        · exact absurd h (by simp)
        · rename_i rs' hrs
          simp only [Except.ok.injEq] at h
          subst h
          simp [ih rs' hrs]

theorem partialD_force (fields : List (String × Value)) (opts : List (String × Decoder)) :
    forceDecode (partialD opts) (.obj fields) =
      match partialGo fields opts with
      | .ok rs => .ok (.obj rs)
      | .error (.decoderError e) => .error (.decoderError e)
      | .error (.other _) => .error (.decoderError (mkDecoderError "Invalid data" [])) := by
  unfold forceDecode Decoder.decode partialD createDecoder
  cases hp : partialGo fields opts with
  | ok rs => simp [hp]
  | error e => cases e <;> simp [hp]

theorem structuredObject_ok_optional (req : Option (List (String × Decoder)))
    (opts : List (String × Decoder)) (fields : List (String × Value))
    (out : List (String × Value))
    (h : (structuredObject req (some opts)).decode (.obj fields) = .ok (.obj out)) :
    ∃ base rs, partialGo fields opts = .ok rs ∧ out = assignFields base (.obj rs) := by
  cases req with
  | none =>
    simp only [structuredObject, createDecoder, Decoder.decode, checkDefinedE] at h
    rw [partialD_force fields opts] at h
    cases hp : partialGo fields opts with
    | error e =>
      rw [hp] at h
      cases e <;> simp at h
    | ok rs =>
      rw [hp] at h
      simp only [Except.ok.injEq, Value.obj.injEq] at h
      exact ⟨[], rs, rfl, h.symm⟩
  | some struct =>
    simp only [structuredObject, createDecoder, Decoder.decode, checkDefinedE] at h
    cases hr : forceDecode (requiredD struct) (.obj fields) with
    | error e =>
      rw [hr] at h
      cases e <;> simp at h
    | ok rv =>
      rw [hr] at h
      rw [partialD_force fields opts] at h
      cases hp : partialGo fields opts with
      | error e =>
        rw [hp] at h
        cases e <;> simp at h
      | ok rs =>
        rw [hp] at h
        simp only [Except.ok.injEq, Value.obj.injEq] at h
        exact ⟨assignFields [] rv, rs, rfl, h.symm⟩

theorem partialGo_head_null_error (fields : List (String × Value)) (f : String) (df : Decoder)
    (opts2 : List (String × Decoder)) (e : DecoderError)
    (hlook : lookupD fields f = .vnull) (hdf : df.decode .vnull = .error e) :
    partialGo fields ((f, df) :: opts2) =
      .error (.decoderError (mkDecoderError e.message (f :: e.path))) := by
  have hfd := forceDecodeWithPath_error df .vnull f e hdf
  simp only [partialGo, hlook, hfd]

/-- C6: for a `structuredObject` decoder with an optional field `f` and any
keyed-container input: when `f` is absent or bound to `undefined`, a
successful decode marks `f` absent (`none`); a binding of `null` is not
treated as absence — the field decoder is run on `null`, and its failure
aborts the whole object decode with `f` prepended to the failure path; and a
binding the field decoder accepts is marked present (`some` of the decoded
value). -/
theorem structuredObject_optional_field_spec (fields : List (String × Value)) :
    (∀ req opts (f : String) (df : Decoder) out, (f, df) ∈ opts →
      (opts.map Prod.fst).Nodup → lookupD fields f = .jsUndefined →
      (structuredObject req (some opts)).decode (.obj fields) = .ok (.obj out) →
      lookupField out f = some noneV) ∧
    (∀ req opts1 (f : String) (df : Decoder) opts2 acc e, ReqPhaseOk req (.obj fields) →
      partialGo fields opts1 = .ok acc →
      lookupD fields f = .vnull →
      df.decode .vnull = .error e →
      (structuredObject req (some (opts1 ++ (f, df) :: opts2))).decode (.obj fields) =
        .error (mkDecoderError e.message (f :: e.path))) ∧
    (∀ req opts (f : String) (df : Decoder) w r out, (f, df) ∈ opts →
      (opts.map Prod.fst).Nodup → lookupD fields f = w → w ≠ .jsUndefined →
      df.decode w = .ok r →
      (structuredObject req (some opts)).decode (.obj fields) = .ok (.obj out) →
      lookupField out f = some (someV r)) := by
  refine ⟨?_, ?_, ?_⟩
  · intro req opts f df out hmem hnd hund hdec
    obtain ⟨base, rs, hp, hout⟩ := structuredObject_ok_optional req opts fields out hdec
    have hks := partialGo_keys fields opts rs hp
    have hlk := partialGo_lookup_absent fields f df opts rs hmem hnd hund hp
    rw [hout]
    exact lookupField_assignFields base rs f noneV hlk (hks ▸ hnd)
  · intro req opts1 f df opts2 acc e hreq hpre hlook hdf
    have hpart : partialGo fields (opts1 ++ (f, df) :: opts2) =
        .error (.decoderError (mkDecoderError e.message (f :: e.path))) := by
      rw [partialGo_append fields opts1 ((f, df) :: opts2) acc hpre]
      rw [partialGo_head_null_error fields f df opts2 e hlook hdf]
    have hforce := partialD_force fields (opts1 ++ (f, df) :: opts2)
    rw [hpart] at hforce
    cases req with
    | none =>
      simp only [structuredObject, createDecoder, Decoder.decode, checkDefinedE]
      rw [hforce]
    | some struct =>
      obtain ⟨rv, hrv⟩ := hreq
      simp only [structuredObject, createDecoder, Decoder.decode, checkDefinedE]
      rw [hrv, hforce]
  · intro req opts f df w r out hmem hnd hw hwne hdec hok
    obtain ⟨base, rs, hp, hout⟩ := structuredObject_ok_optional req opts fields out hok
    have hks := partialGo_keys fields opts rs hp
    have hlk := partialGo_lookup_present fields f df w r opts rs hmem hnd hw hwne hdec hp
    rw [hout]
    exact lookupField_assignFields base rs f (someV r) hlk (hks ▸ hnd)

theorem structuredObject_optional_field_spec_witness :
    (structuredObject none (some [("f", string)])).decode (.obj [("f", .vnull)]) =
      .error (mkDecoderError "This value is not there" ["f"]) :=
  (structuredObject_optional_field_spec [("f", .vnull)]).2.1 none [] "f" string [] []
    (mkDecoderError "This value is not there" []) trivial rfl rfl rfl

/-! ## C5 counterexample -/

/-- C5 counterexample: `tuple(number).decode(["a"])` has a sequence of
sufficient length (`1 ≥ 1`), yet it fails — on the element decode — so
"fails iff `length(seq) < n`" is false as stated. -/
theorem tuple_fails_at_sufficient_length_counterexample :
    (tuple [number]).decode (.arr [.str "a"]) =
      .error (mkDecoderError "This is not a number: \"a\"" ["0"]) ∧
    ¬ (([Value.str "a"].length) < ([number].length)) :=
  ⟨rfl, by simp⟩

/-! ## C7 — path accumulation through the recursive category decoder -/

/-- C7 counterexample: on the spec's own input
`{subcategories:[{subcategories:[{name: 1}]}]}` the outer object is missing
its required `name` field, so the decode fails immediately with
`"Object missing required property 'name'"` and an empty path — not with the
claimed path `["subcategories","0","subcategories","0","name"]`. -/
theorem recursive_category_path_counterexample :
    (categoryDecoder 4).decode origCatInput =
      .error (mkDecoderError "Object missing required property \x27name\x27" []) ∧
    ([] : List String) ≠ ["subcategories", "0", "subcategories", "0", "name"] :=
  ⟨rfl, by simp⟩

/-- C7 amended: with the outer two levels given their required (string) `name`
fields — input `{name:"a", subcategories:[{name:"b", subcategories:[{name: 1}]}]}` —
the recursive category decoder fails, the failure's path is exactly
`["subcategories","0","subcategories","0","name"]` and its message identifies
the offending element as not a string. -/
theorem recursive_category_path_amended :
    (categoryDecoder 4).decode amendedCatInput =
      .error { message := "subcategories.0.subcategories.0.name: This is not a string: 1",
               path := ["subcategories", "0", "subcategories", "0", "name"] } :=
  rfl

end FpTsSchema
